import Mathlib

/-!
Shallow embedding of `GameBackupWatcher.py` (khalilmasri/GameBackupWatcher).

The embedding models the coordination core of the watcher:

* `globMatch` / `fnmatchStr` — Python's `fnmatch.fnmatch` (POSIX, where
  `os.path.normcase` is the identity), with `*`, `?` and `[...]` classes;
* `basename`, `joinPath` — `os.path.basename` / `os.path.join` for POSIX paths;
* `FsNode` / `FsEntries` — a filesystem tree of regular files (with a byte
  length) and directories (with an ordered association list of named children,
  the order standing for `os.listdir` order);
* `wfsLoop` / `wait_for_stable_file` — `BackupHandler.wait_for_stable_file`
  (lines 129-144) over a trace of samples;
* `CoordState`, `handle_event`, `backup_file`, `wait_for_next_timeout`,
  `runOps` — the event/suppression state machine of `BackupHandler`
  (lines 94-208) with the module global `g_stop_watching`;
* `restore_dir_loop` — the directory branch of `BackupApp.restore_backup`
  (lines 593-611), including the `shutil.copy2` retargeting rule when the
  destination of a file copy is an existing directory;
* `restore_backup` — the control flow of `BackupApp.restore_backup`
  (lines 531-624): guards, watcher stop, copy with error capture, resume;
* `collectBackups` / `load_previous_backups` — `BackupApp.load_previous_backups`
  (lines 626-664).

Mutable state is passed explicitly; each background action is a function on a
state record, and `runOps` interleaves event deliveries with executions of
dispatched snapshot tasks.  Environmental facts that the Python code reads
from the operating system (whether a path exists when a check runs, whether a
copy raises `PermissionError`, the timestamp string) are arguments of the
corresponding functions.
-/

namespace GBW

/- ---------------------------------------------------------------------
Glob matching: Python `fnmatch.fnmatch(name, pat)` on POSIX.
`fnmatch` translates the pattern to an anchored regular expression:
`*` matches any sequence, `?` any single character, `[...]` a character
class (leading `!` negates, a `]` right after `[` or `[!` is a literal,
`a-b` is a range, an unterminated `[` is a literal `[`).
--------------------------------------------------------------------- -/

/-- Membership of a character in the body of a bracket class.  `a-b` is a
range (an inverted range matches nothing, as in `fnmatch.translate`); a
leading or trailing `-` is a literal. -/
def inClass (c : Char) : List Char → Bool
  | [] => false
  | a :: '-' :: b :: rest => (decide (a ≤ c) && decide (c ≤ b)) || inClass c rest
  | a :: rest => (c == a) || inClass c rest

/-- Split a class body at the first `]`: returns the body before it and the
remaining pattern after it, or `none` when the class is unterminated. -/
def scanClass : List Char → Option (List Char × List Char)
  | [] => none
  | ']' :: rest => some ([], rest)
  | c :: rest =>
    match scanClass rest with
    | none => none
    | some (body, rem) => some (c :: body, rem)

/-- Anchored glob matching with explicit recursion depth.  Every step
consumes at least one character of the name or of the pattern, so a depth of
`name.length + pat.length + 1` (used by `globMatch`) is never exhausted. -/
def globMatchF : Nat → List Char → List Char → Bool
  | 0, _, _ => false
  | fuel + 1, name, pat =>
    match pat with
    | [] => name.isEmpty
    | '*' :: ps =>
      globMatchF fuel name ps ||
        (match name with
         | [] => false
         | _ :: n2 => globMatchF fuel n2 ('*' :: ps))
    | '?' :: ps =>
      match name with
      | [] => false
      | _ :: n2 => globMatchF fuel n2 ps
    | '[' :: ps =>
      let negBody : Bool × List Char :=
        match ps with
        | '!' :: t => (true, t)
        | _ => (false, ps)
      let scanned : Option (List Char × List Char) :=
        match negBody.2 with
        | ']' :: t =>
          match scanClass t with
          | none => none
          | some (body, rem) => some (']' :: body, rem)
        | cs => scanClass cs
      match scanned with
      | none =>
        match name with
        | [] => false
        | c :: n2 => (c == '[') && globMatchF fuel n2 ps
      | some (body, rem) =>
        match name with
        | [] => false
        | c :: n2 => ((inClass c body).xor negBody.1) && globMatchF fuel n2 rem
    | pc :: ps =>
      match name with
      | [] => false
      | c :: n2 => (c == pc) && globMatchF fuel n2 ps

/-- Python `fnmatch.fnmatch` over character lists (full, anchored match). -/
def globMatch (name pat : List Char) : Bool :=
  globMatchF (name.length + pat.length + 1) name pat

/-- `fnmatch.fnmatch(name, pat)` on strings; `os.path.normcase` is the
identity on POSIX. -/
def fnmatchStr (name pat : String) : Bool :=
  globMatch name.toList pat.toList

/-- `os.path.basename` for POSIX paths: everything after the last `/`. -/
def basename (p : String) : String :=
  String.mk ((p.toList.reverse.takeWhile (fun c => c != '/')).reverse)

/-- Whether a POSIX path string begins with `/`. -/
def startsWithSlash (s : String) : Bool :=
  match s.toList with
  | '/' :: _ => true
  | _ => false

/-- Whether a POSIX path string ends with `/`. -/
def endsWithSlash (s : String) : Bool :=
  match s.toList.reverse with
  | '/' :: _ => true
  | _ => false

/-- `os.path.join(a, b)` for POSIX paths: an absolute `b` replaces `a`;
otherwise the components are joined with a single separator. -/
def joinPath (a b : String) : String :=
  if startsWithSlash b then b
  else if a = "" || endsWithSlash a then a ++ b
  else a ++ "/" ++ b

/-- Python `s.endswith(suffix)`. -/
def endsWithStr (s sfx : String) : Bool :=
  List.isSuffixOf sfx.toList s.toList

/-- Python `str.split(sep)` for a one-character separator: the list of chunks
between occurrences of the separator (`n` separators give `n + 1` chunks). -/
def pySplit (sep : Char) : List Char → List (List Char)
  | [] => [[]]
  | c :: rest =>
    if c == sep then [] :: pySplit sep rest
    else
      match pySplit sep rest with
      | [] => [[c]]
      | h :: t => (c :: h) :: t

/-- Lines 552-555: the watched name derived from the filename pattern —
`if "*" in watched_name: watched_name = watched_name.split("*")[0]`. -/
def watchedNameFn (pat : String) : String :=
  if pat.toList.contains '*' then String.mk ((pySplit '*' pat.toList).headD [])
  else pat

/-- Line 556: `original_path = os.path.join(source_dir, watched_name)`. -/
def originalPathFn (sourceDir pat : String) : String :=
  joinPath sourceDir (watchedNameFn pat)

/-- Modelled from the spec (§4.5 step 1), for comparison with
`watchedNameFn`: the portion of the pattern before its first wildcard
character, the glob wildcard characters being `*`, `?` and `[`. -/
def literalPrefixSpec (pat : String) : String :=
  String.mk (pat.toList.takeWhile (fun c => !(c == '*' || c == '?' || c == '[')))

/- ---------------------------------------------------------------------
Filesystem trees.
--------------------------------------------------------------------- -/

mutual
/-- A filesystem entry: a regular file carrying its byte length (the only
content attribute the watcher ever reads), or a directory. -/
inductive FsNode where
  | file (content : Nat)
  | dir (children : FsEntries)
/-- Ordered named children of a directory, in `os.listdir` order.  Names are
unique on a real filesystem; operations below resolve a name to its first
occurrence. -/
inductive FsEntries where
  | nil
  | cons (name : String) (node : FsNode) (rest : FsEntries)
end

mutual
/-- Size metric of an entry: a file's byte length, or the recursive sum of
the byte lengths of all files below a directory (lines 133-136). -/
def sizeNode : FsNode → Nat
  | .file c => c
  | .dir ch => sizeEntries ch
/-- Sum of `sizeNode` over a list of children. -/
def sizeEntries : FsEntries → Nat
  | .nil => 0
  | .cons _ n rest => sizeNode n + sizeEntries rest
end

/-- Resolve a name in a directory listing. -/
def lookupE : FsEntries → String → Option FsNode
  | .nil, _ => none
  | .cons n node rest, k => if n = k then some node else lookupE rest k

/-- Write a node at a name: replace the existing entry, or append a new one. -/
def setE : FsEntries → String → FsNode → FsEntries
  | .nil, k, v => .cons k v .nil
  | .cons n node rest, k, v =>
    if n = k then .cons n v rest else .cons n node (setE rest k v)

/-- The names of a directory listing, in order. -/
def namesE : FsEntries → List String
  | .nil => []
  | .cons n _ rest => n :: namesE rest

/-- The entries of a directory listing as a list of pairs. -/
def entriesList : FsEntries → List (String × FsNode)
  | .nil => []
  | .cons n node rest => (n, node) :: entriesList rest

/-- `shutil.copy2(src_file, dest/k)` writing a file of length `c`.  When the
destination path is an existing directory, `copy2` retargets to
`dest/k/basename(src)` = `dest/k/k`; `copyfile` then raises if that retarget
is itself a directory.  Returns the updated listing and `false` when the copy
raised (in which case nothing was written). -/
def copy2Model (dest : FsEntries) (k : String) (c : Nat) : FsEntries × Bool :=
  match lookupE dest k with
  | some (.dir ch) =>
    match lookupE ch k with
    | some (.dir _) => (dest, false)
    | _ => (setE dest k (.dir (setE ch k (.file c))), true)
  | _ => (setE dest k (.file c), true)

/-- The per-level file pass of the `os.walk` merge (lines 606-611): `os.walk`
yields the files of the current root before descending, and each is copied
with `shutil.copy2`.  Stops at the first raised copy. -/
def copyFiles : FsEntries → FsEntries → FsEntries × Bool
  | dest, .nil => (dest, true)
  | dest, .cons n (.file c) rest =>
    match copy2Model dest n c with
    | (d, true) => copyFiles d rest
    | (d, false) => (d, false)
  | dest, .cons _ (.dir _) rest => copyFiles dest rest

mutual
/-- The `os.walk` merge of snapshot children `src` into destination children
`dest` (lines 606-611): files of the current level first, then each
subdirectory.  `os.makedirs(target_root, exist_ok=True)` raises when the
target exists as a file.  Returns the listing reached and `false` when some
step raised (the exception aborts the whole walk). -/
def mergeWalk (dest src : FsEntries) : FsEntries × Bool :=
  match copyFiles dest src with
  | (d, true) => walkDirs d src
  | (d, false) => (d, false)
termination_by (sizeOf src, 1)
/-- The subdirectory pass of `mergeWalk`. -/
def walkDirs (dest : FsEntries) (src : FsEntries) : FsEntries × Bool :=
  match src with
  | .nil => (dest, true)
  | .cons _ (.file _) rest => walkDirs dest rest
  | .cons n (.dir sch) rest =>
    match lookupE dest n with
    | some (.file _) => (dest, false)
    | some (.dir dch) =>
      match mergeWalk dch sch with
      | (m, true) => walkDirs (setE dest n (.dir m)) rest
      | (m, false) => (setE dest n (.dir m), false)
    | none =>
      match mergeWalk .nil sch with
      | (m, true) => walkDirs (setE dest n (.dir m)) rest
      | (m, false) => (setE dest n (.dir m), false)
termination_by (sizeOf src, 0)
end

/-- One iteration of the directory-restore loop (lines 596-611) for the
snapshot entry `(n, node)` against the destination listing `dest`:
a file is copied with `shutil.copy2`; a directory is `shutil.copytree`d when
the destination name is free, merged with the `os.walk` walk when it is an
existing directory, and raises (from `os.makedirs`) when it is an existing
file. -/
def restoreStep (dest : FsEntries) (n : String) (node : FsNode) : FsEntries × Bool :=
  match node with
  | .file c => copy2Model dest n c
  | .dir sch =>
    match lookupE dest n with
    | none => (setE dest n (.dir sch), true)
    | some (.dir dch) =>
      match mergeWalk dch sch with
      | (m, ok) => (setE dest n (.dir m), ok)
    | some (.file _) => (dest, false)

/-- The directory branch of `restore_backup` (lines 593-611): iterate the
snapshot's entries in `os.listdir` order, applying `restoreStep`; a raised
step aborts the loop (the exception propagates to the surrounding `try`).
Returns the final destination listing and whether the loop completed. -/
def restore_dir_loop : FsEntries → FsEntries → FsEntries × Bool
  | dest, .nil => (dest, true)
  | dest, .cons n node rest =>
    match restoreStep dest n node with
    | (d, true) => restore_dir_loop d rest
    | (d, false) => (d, false)

/- ---------------------------------------------------------------------
Stability detection: `wait_for_stable_file` (lines 129-144).
--------------------------------------------------------------------- -/

/-- The sampling loop of `wait_for_stable_file`, driven by a trace of
observations: `some node` is the filesystem entry found at the path when a
sample runs, `none` means the path is neither a file nor a directory (the
`else: break` arm).  Result `some k` means the call returned after consuming
`k` observations; `none` means the trace was exhausted with the loop still
running (the call has not returned within the trace). -/
def wfsLoop (retries : Nat) : Nat → Int → List (Option FsNode) → Option Nat
  | stable_count, last_size, obs =>
    if stable_count < retries then
      match obs with
      | [] => none
      | none :: _ => some 1
      | some node :: rest =>
        if (sizeNode node : Int) = last_size then
          (wfsLoop retries (stable_count + 1) last_size rest).map (· + 1)
        else
          (wfsLoop retries 0 (sizeNode node) rest).map (· + 1)
    else some 0

/-- `wait_for_stable_file(path, wait_time, retries)` from its initial state
`stable_count = 0`, `last_size = -1` (line 130-131); `wait_time` only sets the
sleep between samples and does not affect the returned trace position. -/
def wait_for_stable_file (obs : List (Option FsNode)) (retries : Nat) : Option Nat :=
  wfsLoop retries 0 (-1) obs

/- ---------------------------------------------------------------------
The event coordinator: `BackupHandler` and the global `g_stop_watching`.
--------------------------------------------------------------------- -/

/-- The mutable state shared by `handle_event` and the background snapshot
threads: the module global `g_stop_watching` (the suppression flag), the
handler's `stop_requested`, the dispatched snapshot threads not yet run, the
snapshots created so far (their destination file names, in order), how many
debounce timers have been armed (a `time.sleep(self.timeout)` in
`wait_for_next_timeout` with a non-zero timeout), and the log lines emitted
through `self.parent.log`. -/
structure CoordState where
  gStopWatching : Bool
  stopRequested : Bool
  inFlight : List String
  snapshots : List String
  timersArmed : Nat
  log : List String

/-- The state at module load: `g_stop_watching = False` (line 18), a fresh
handler (line 106), nothing dispatched, nothing created. -/
def initCoord : CoordState :=
  { gStopWatching := false, stopRequested := false, inFlight := [],
    snapshots := [], timersArmed := 0, log := [] }

/-- What the snapshot task finds the source to be at copy time (lines
187-195): a regular file, a directory, or neither (the `else` arm). -/
inductive CopyKind where
  | file
  | dir
  | other

/-- Which exception, if any, the body of the `try` block raises (lines
203-208): `PermissionError` or any other `Exception`. -/
inductive ErrKind where
  | perm
  | other

/-- Lines 108-115: with a zero timeout, clear `g_stop_watching` at once;
otherwise hold it during a `time.sleep(self.timeout)` (the armed debounce
timer) and clear it at expiry.  The model records the completed
sleep-and-clear as one step. -/
def wait_for_next_timeout (timeout : Nat) (s : CoordState) : CoordState :=
  if timeout = 0 then { s with gStopWatching := false }
  else { s with gStopWatching := false, timersArmed := s.timersArmed + 1 }

/-- Lines 146-154, `handle_event(event)`: return if `g_stop_watching`; return
if `stop_requested` or the event path does not exist; if the basename matches
the filename pattern, set `g_stop_watching = True` and dispatch a
`backup_file` thread for the path. -/
def handle_event (pat : String) (srcPath : String) (pathExists : Bool)
    (s : CoordState) : CoordState :=
  if s.gStopWatching then s
  else if s.stopRequested || !pathExists then s
  else if fnmatchStr (basename srcPath) pat then
    { s with gStopWatching := true, inFlight := s.inFlight ++ [srcPath] }
  else s

/-- Lines 156-208, `backup_file(file_path)` run by the dispatched thread:
log; if the source vanished, clear `g_stop_watching` and return; otherwise
run the `try` block — on success (a file or a directory was copied) record
the snapshot `<basename>_<timestamp>`, log, and run `wait_for_next_timeout`;
an entry that is neither file nor directory only logs and returns; a raised
`PermissionError` or other `Exception` is caught and only logged.  The
environment facts are arguments: whether the source exists when the thread
starts, what kind it is at copy time, and whether the `try` body raises. -/
def backup_file (filePath ts : String) (timeout : Nat) (existsNow : Bool)
    (kind : CopyKind) (copyErr : Option ErrKind) (s : CoordState) : CoordState :=
  let s1 := { s with log := s.log ++ ["Detected change, backing up..."] }
  if !existsNow then { s1 with gStopWatching := false }
  else
    match copyErr with
    | some ErrKind.perm =>
      { s1 with log := s1.log ++ ["Permission denied: " ++ filePath] }
    | some ErrKind.other =>
      { s1 with log := s1.log ++ ["Error backing up " ++ filePath] }
    | none =>
      match kind with
      | CopyKind.other =>
        { s1 with log := s1.log ++ ["Unknown file type: " ++ filePath] }
      | _ =>
        let destName := basename filePath ++ "_" ++ ts
        let s2 := { s1 with snapshots := s1.snapshots ++ [destName],
                            log := s1.log ++ ["Backup created: " ++ destName] }
        wait_for_next_timeout timeout s2

/-- One interleaving step of a watch session: an event delivery on the
observer thread (with the path's existence at that moment), the execution of
the oldest dispatched snapshot thread (with its environment facts), or
`stop()` on the handler. -/
inductive WatchOp where
  | ev (srcPath : String) (pathExists : Bool)
  | task (ts : String) (existsNow : Bool) (kind : CopyKind) (copyErr : Option ErrKind)
  | stopReq

/-- Apply one `WatchOp` to the coordinator state. -/
def stepOp (pat : String) (timeout : Nat) (s : CoordState) : WatchOp → CoordState
  | WatchOp.ev p ex => handle_event pat p ex s
  | WatchOp.task ts ex kind err =>
    match s.inFlight with
    | [] => s
    | p :: rest => backup_file p ts timeout ex kind err { s with inFlight := rest }
  | WatchOp.stopReq => { s with stopRequested := true }

/-- Run a sequence of interleaving steps. -/
def runOps (pat : String) (timeout : Nat) : CoordState → List WatchOp → CoordState
  | s, [] => s
  | s, op :: ops => runOps pat timeout (stepOp pat timeout s op) ops

/- ---------------------------------------------------------------------
Restore control flow: `BackupApp.restore_backup` (lines 531-624).
--------------------------------------------------------------------- -/

/-- The application state `restore_backup` manipulates: the global
`g_stop_watching`, whether the watch session is active (`watcher_thread`
exists and the stop button is enabled), and the log. -/
structure AppRestoreState where
  gStopWatching : Bool
  watcherRunning : Bool
  log : List String

/-- What the backup path is on disk when the copy runs (lines 589-615): a
file, a directory, or neither. -/
inductive RestoreKind where
  | file
  | dir
  | missing

/-- Lines 531-624, `restore_backup(backup_filename)`: set `g_stop_watching`;
return (clearing it) when the backup is unknown or the source directory is
unset; otherwise derive `original_path`, stop the watcher if it runs (the
lock-probe polling loop, lines 566-585, only sleeps and polls), run the copy
inside `try` — any exception is caught and logged — then clear
`g_stop_watching` and restart the watcher if it was running before.
`copyRaises` says whether the `try` body raises. -/
def restore_backup (pat sourceDir backupName backupPath : String) (found : Bool)
    (kind : RestoreKind) (copyRaises : Bool) (s : AppRestoreState) : AppRestoreState :=
  let s1 := { s with gStopWatching := true }
  if !found then
    { s1 with log := s1.log ++ ["Backup not found in table: " ++ backupName],
              gStopWatching := false }
  else if sourceDir = "" then
    { s1 with log := s1.log ++ ["Source directory not set!"], gStopWatching := false }
  else
    let originalPath := originalPathFn sourceDir pat
    let watcherWasRunning := s1.watcherRunning
    let s2 :=
      if watcherWasRunning then
        { s1 with watcherRunning := false, log := s1.log ++ ["Stopped monitoring."] }
      else s1
    let s3 := { s2 with log := s2.log ++
      ["Restoring " ++ backupName ++ " -> " ++ originalPath, backupPath] }
    let s4 :=
      if copyRaises then { s3 with log := s3.log ++ ["Error restoring backup"] }
      else
        match kind with
        | RestoreKind.file =>
          { s3 with log := s3.log ++ ["Restore complete: " ++ backupName] }
        | RestoreKind.dir =>
          { s3 with log := s3.log ++ ["Restore complete: " ++ backupName] }
        | RestoreKind.missing =>
          { s3 with log := s3.log ++ ["Restore failed: unknown file type!"] }
    let s5 := { s4 with gStopWatching := false }
    if watcherWasRunning then
      { s5 with watcherRunning := true, log := s5.log ++ ["Started monitoring."] }
    else s5

/- ---------------------------------------------------------------------
Retention: `BackupApp.load_previous_backups` (lines 626-664).
--------------------------------------------------------------------- -/

/-- An entry inside a date folder: its name and `os.path.getmtime`. -/
structure DateEntry where
  name : String
  mtime : Nat

/-- A top-level entry of the backup root: its name, whether it is a
directory, and (when a directory) its own entries. -/
structure TopEntry where
  name : String
  isDir : Bool
  entries : List DateEntry

/-- One collected backup tuple `(backup_datetime, backup_name, backup_path,
backup_path + ".png")` (line 651). -/
structure BackupRec where
  mtime : Nat
  name : String
  path : String
  screenshot : String

/-- Lines 636-651: walk the top-level entries of the backup root in
`os.listdir` order, skip those that are not directories, and inside each
date folder skip names ending in `.png` and collect the rest. -/
def collectBackups (dest : String) (tops : List TopEntry) : List BackupRec :=
  tops.flatMap fun t =>
    if t.isDir then
      (t.entries.filter fun e => !endsWithStr e.name ".png").map fun e =>
        { mtime := e.mtime, name := e.name,
          path := joinPath (joinPath dest t.name) e.name,
          screenshot := joinPath (joinPath dest t.name) e.name ++ ".png" }
    else []

/-- Lines 653-657: sort all collected backups by timestamp descending
(Python's stable sort with `reverse=True`) and keep the `num_to_load` most
recent. -/
def load_previous_backups (dest : String) (tops : List TopEntry)
    (numToLoad : Nat) : List BackupRec :=
  ((collectBackups dest tops).mergeSort fun a b => decide (b.mtime ≤ a.mtime)).take
    numToLoad

end GBW

namespace GBW

/- ---------------------------------------------------------------------
C3 / C9: events filtered out by `handle_event`.
--------------------------------------------------------------------- -/

/-- C3: for every name pattern and every event whose path's basename does not
match it, `handle_event` returns with no effect: the state — in particular
the suppression flag and the list of dispatched snapshot tasks — is
unchanged. -/
theorem c3_nonmatching_event_noop (pat p : String) (ex : Bool) (s : CoordState)
    (h : fnmatchStr (basename p) pat = false) :
    handle_event pat p ex s = s := by
  simp [handle_event, h]

theorem c3_witness :
    fnmatchStr (basename "/src/readme.txt") "*.sav" = false ∧
      handle_event "*.sav" "/src/readme.txt" true initCoord = initCoord :=
  ⟨by decide,
   c3_nonmatching_event_noop "*.sav" "/src/readme.txt" true initCoord (by decide)⟩

/-- C9: for every event whose path does not exist when `handle_event` runs,
the handler returns with no effect, even when the basename matches the
pattern: no suppression is set and no snapshot task is dispatched. -/
theorem c9_missing_path_noop (pat p : String) (s : CoordState) :
    handle_event pat p false s = s := by
  simp [handle_event]

/- ---------------------------------------------------------------------
C10: a vanished source at task start.
--------------------------------------------------------------------- -/

/-- C10: when the source path no longer exists as the dispatched snapshot
task begins, `backup_file` clears the suppression flag and returns: no
snapshot is created, no debounce timer is armed, and nothing else of the
coordinator state changes (only a log line is emitted). -/
theorem c10_vanished_source (p ts : String) (timeout : Nat) (kind : CopyKind)
    (copyErr : Option ErrKind) (s : CoordState) :
    (backup_file p ts timeout false kind copyErr s).gStopWatching = false ∧
    (backup_file p ts timeout false kind copyErr s).snapshots = s.snapshots ∧
    (backup_file p ts timeout false kind copyErr s).timersArmed = s.timersArmed ∧
    (backup_file p ts timeout false kind copyErr s).inFlight = s.inFlight := by
  simp [backup_file]

/- ---------------------------------------------------------------------
C1: suppression makes `handle_event` a no-op and serializes snapshot tasks.
--------------------------------------------------------------------- -/

theorem backup_file_inFlight (p ts : String) (timeout : Nat) (ex : Bool)
    (kind : CopyKind) (err : Option ErrKind) (s : CoordState) :
    (backup_file p ts timeout ex kind err s).inFlight = s.inFlight := by
  rcases err with _ | e
  · cases kind <;> cases ex <;>
      simp [backup_file, wait_for_next_timeout] <;> split <;> rfl
  · cases e <;> cases ex <;> simp [backup_file]

theorem stepOp_invariant (pat : String) (timeout : Nat) (s : CoordState) (op : WatchOp)
    (h1 : s.inFlight.length ≤ 1) (h2 : s.gStopWatching = false → s.inFlight = []) :
    (stepOp pat timeout s op).inFlight.length ≤ 1 ∧
      ((stepOp pat timeout s op).gStopWatching = false →
        (stepOp pat timeout s op).inFlight = []) := by
  cases op with
  | ev p ex =>
    simp only [stepOp]
    unfold handle_event
    split
    · exact ⟨h1, h2⟩
    · split
      · exact ⟨h1, h2⟩
      · split
        · next hflag _ _ =>
          have hf : s.gStopWatching = false := by
            cases hg : s.gStopWatching
            · rfl
            · exact absurd hg hflag
          simp [h2 hf]
        · exact ⟨h1, h2⟩
  | task ts ex kind err =>
    simp only [stepOp]
    cases hfl : s.inFlight with
    | nil => exact ⟨h1, h2⟩
    | cons p rest =>
      have hrest : rest = [] := by
        have := h1
        rw [hfl] at this
        simp at this
        simpa using this
      constructor
      · rw [backup_file_inFlight]
        simp [hrest]
      · intro _
        rw [backup_file_inFlight]
        simp [hrest]
  | stopReq => exact ⟨h1, h2⟩

theorem runOps_inFlight_le_one (pat : String) (timeout : Nat) (ops : List WatchOp) :
    ∀ s : CoordState, s.inFlight.length ≤ 1 →
      (s.gStopWatching = false → s.inFlight = []) →
      (runOps pat timeout s ops).inFlight.length ≤ 1 := by
  induction ops with
  | nil => intro s h1 _; simpa [runOps] using h1
  | cons op ops ih =>
    intro s h1 h2
    obtain ⟨j1, j2⟩ := stepOp_invariant pat timeout s op h1 h2
    simpa [runOps] using ih _ j1 j2

theorem handle_event_snapshots (pat p : String) (ex : Bool) (s : CoordState) :
    (handle_event pat p ex s).snapshots = s.snapshots := by
  simp only [handle_event]
  split_ifs <;> rfl

theorem backup_file_snapshots_le (p ts : String) (timeout : Nat) (ex : Bool)
    (kind : CopyKind) (err : Option ErrKind) (s : CoordState) :
    (backup_file p ts timeout ex kind err s).snapshots.length ≤ s.snapshots.length + 1 := by
  rcases err with _ | e
  · cases kind <;> cases ex <;>
      simp [backup_file, wait_for_next_timeout] <;> split <;> simp
  · cases e <;> cases ex <;> simp [backup_file]

theorem backup_file_success_snapshot (p ts : String) (timeout : Nat)
    (kind : CopyKind) (s : CoordState) (hk : kind ≠ CopyKind.other) :
    (backup_file p ts timeout true kind none s).snapshots
      = s.snapshots ++ [basename p ++ "_" ++ ts] := by
  cases kind with
  | other => exact absurd rfl hk
  | file => simp [backup_file, wait_for_next_timeout]; split <;> rfl
  | dir => simp [backup_file, wait_for_next_timeout]; split <;> rfl

/-- C1 (amended): while the coordinator is Suppressed or Stopped,
`handle_event` returns with no effect for every incoming event; consequently
never more than one snapshot task is in flight in any interleaving of a
watch session, and at most one snapshot — exactly one when the dispatched
task finds the source present, of a known kind, and the copy raises no
exception — is produced per dispatched task (hence per suppression episode;
a vanished source or an error produces none). -/
theorem c1_suppression_protocol (pat : String) (timeout : Nat) :
    (∀ (p : String) (ex : Bool) (s : CoordState),
        s.gStopWatching = true ∨ s.stopRequested = true →
        handle_event pat p ex s = s) ∧
    (∀ ops : List WatchOp, (runOps pat timeout initCoord ops).inFlight.length ≤ 1) ∧
    (∀ (p : String) (ex : Bool) (s : CoordState),
        (handle_event pat p ex s).snapshots = s.snapshots) ∧
    (∀ (p ts : String) (ex : Bool) (kind : CopyKind) (err : Option ErrKind)
        (s : CoordState),
        (backup_file p ts timeout ex kind err s).snapshots.length
          ≤ s.snapshots.length + 1) ∧
    (∀ (p ts : String) (kind : CopyKind) (s : CoordState), kind ≠ CopyKind.other →
        (backup_file p ts timeout true kind none s).snapshots
          = s.snapshots ++ [basename p ++ "_" ++ ts]) := by
  refine ⟨?_, ?_, ?_, ?_, ?_⟩
  · intro p ex s h
    rcases h with h | h <;> simp [handle_event, h]
  · intro ops
    exact runOps_inFlight_le_one pat timeout ops initCoord (by simp [initCoord])
      (fun _ => by simp [initCoord])
  · intro p ex s; exact handle_event_snapshots pat p ex s
  · intro p ts ex kind err s; exact backup_file_snapshots_le p ts timeout ex kind err s
  · intro p ts kind s hk; exact backup_file_success_snapshot p ts timeout kind s hk

theorem c1_witness :
    handle_event "*.sav" "/src/game.sav" true
        { initCoord with gStopWatching := true }
      = { initCoord with gStopWatching := true } ∧
    (runOps "*.sav" 5 initCoord [WatchOp.ev "/src/game.sav" true]).inFlight.length ≤ 1 ∧
    (backup_file "/src/game.sav" "ts" 5 true CopyKind.file none initCoord).snapshots
      = initCoord.snapshots ++ [basename "/src/game.sav" ++ "_" ++ "ts"] :=
  ⟨(c1_suppression_protocol "*.sav" 5).1 "/src/game.sav" true _ (Or.inl rfl),
   (c1_suppression_protocol "*.sav" 5).2.1 [WatchOp.ev "/src/game.sav" true],
   (c1_suppression_protocol "*.sav" 5).2.2.2.2 "/src/game.sav" "ts" CopyKind.file
     initCoord (by intro h; cases h)⟩

/-- C1 counterexample: a suppression episode that produces no snapshot.  The
first matching event for an existing `/src/game.sav` sets the suppression
flag and dispatches a task; the task then finds the source vanished, clears
the flag (ending the episode) and creates nothing — so "exactly one snapshot
per suppression episode" fails; only "at most one" holds. -/
theorem c1_counterexample :
    (runOps "*.sav" 5 initCoord [WatchOp.ev "/src/game.sav" true]).gStopWatching
        = true ∧
    (runOps "*.sav" 5 initCoord [WatchOp.ev "/src/game.sav" true]).inFlight
        = ["/src/game.sav"] ∧
    (runOps "*.sav" 5 initCoord
        [WatchOp.ev "/src/game.sav" true,
         WatchOp.task "ts" false CopyKind.file none]).gStopWatching = false ∧
    (runOps "*.sav" 5 initCoord
        [WatchOp.ev "/src/game.sav" true,
         WatchOp.task "ts" false CopyKind.file none]).snapshots = [] :=
  ⟨by decide, by decide, by decide, by decide⟩

/- ---------------------------------------------------------------------
C2: what happens to the suppression flag when the snapshot task raises.
--------------------------------------------------------------------- -/

/-- C2: evaluating `backup_file` at the failing input.  A dispatched task
whose `try` block raises `PermissionError` only logs: `wait_for_next_timeout`
is never called, so no debounce timer is armed, `g_stop_watching` stays
`True`, and a later matching event for an existing path is dropped — the
coordinator is wedged in Suppressed, contradicting the claim that the timer
is armed whether the task completes or raises. -/
theorem c2_error_wedges_suppression :
    (backup_file "/src/game.sav" "ts" 5 true CopyKind.file (some ErrKind.perm)
        { gStopWatching := true, stopRequested := false, inFlight := [],
          snapshots := [], timersArmed := 0, log := [] }).gStopWatching = true ∧
    (backup_file "/src/game.sav" "ts" 5 true CopyKind.file (some ErrKind.perm)
        { gStopWatching := true, stopRequested := false, inFlight := [],
          snapshots := [], timersArmed := 0, log := [] }).timersArmed = 0 ∧
    handle_event "*.sav" "/src/game.sav" true
        (backup_file "/src/game.sav" "ts" 5 true CopyKind.file (some ErrKind.perm)
          { gStopWatching := true, stopRequested := false, inFlight := [],
            snapshots := [], timersArmed := 0, log := [] })
      = backup_file "/src/game.sav" "ts" 5 true CopyKind.file (some ErrKind.perm)
          { gStopWatching := true, stopRequested := false, inFlight := [],
            snapshots := [], timersArmed := 0, log := [] } :=
  ⟨by decide, by decide, rfl⟩

end GBW

namespace GBW

/- ---------------------------------------------------------------------
C4: the stability loop.
--------------------------------------------------------------------- -/

theorem wfsLoop_absent (retries sc : Nat) (last : Int) (rest : List (Option FsNode))
    (h : sc < retries) : wfsLoop retries sc last (none :: rest) = some 1 := by
  unfold wfsLoop
  simp [h]

theorem wfsLoop_chain_none (retries : Nat) (hr : 0 < retries) :
    ∀ (rest : List FsNode) (first : FsNode) (last : Int),
      (sizeNode first : Int) ≠ last →
      List.Chain (fun a b => sizeNode a ≠ sizeNode b) first rest →
      wfsLoop retries 0 last ((first :: rest).map some) = none := by
  intro rest
  induction rest with
  | nil =>
    intro first last hne _
    unfold wfsLoop
    simp [hr, hne]
    unfold wfsLoop
    simp [hr]
  | cons b rest ih =>
    intro first last hne hchain
    rcases hchain with _ | ⟨h1, h2⟩
    have hb : (sizeNode b : Int) ≠ (sizeNode first : Int) := by
      intro h
      exact h1 (Nat.cast_injective h).symm
    unfold wfsLoop
    simp [hr, hne]
    exact ih b (sizeNode first) hb h2

theorem wfsLoop_some_run (retries : Nat) :
    ∀ (nodes : List FsNode) (sc : Nat) (last : Int) (k : Nat),
      wfsLoop retries sc last (nodes.map some) = some k →
      (∃ pre mid rest, nodes = pre ++ mid ++ rest ∧ mid.length = retries + 1 ∧
        (∃ v, ∀ x ∈ mid, sizeNode x = v) ∧ pre.length + (retries + 1) ≤ k) ∨
      (∃ pre rest, nodes = pre ++ rest ∧ (∀ x ∈ pre, (sizeNode x : Int) = last) ∧
        retries ≤ sc + pre.length ∧ pre.length ≤ k) := by
  intro nodes
  induction nodes with
  | nil =>
    intro sc last k h
    right
    unfold wfsLoop at h
    by_cases hsc : sc < retries
    · simp [hsc] at h
    · refine ⟨[], [], rfl, by simp, ?_, by simp⟩
      simp only [List.length_nil, Nat.add_zero]
      omega
  | cons n rest ih =>
    intro sc last k h
    by_cases hsc : sc < retries
    · unfold wfsLoop at h
      simp only [hsc, if_true, List.map_cons] at h
      by_cases heq : (sizeNode n : Int) = last
      · rw [if_pos heq] at h
        obtain ⟨k2, hk2, hkk⟩ := Option.map_eq_some'.mp h
        rcases ih (sc + 1) last k2 hk2 with hL | hR
        · left
          obtain ⟨pre, mid, rest2, hsplit, hlen, hval, hbound⟩ := hL
          refine ⟨n :: pre, mid, rest2, by simp [hsplit], hlen, hval, ?_⟩
          simp only [List.length_cons]
          omega
        · right
          obtain ⟨pre, rest2, hsplit, hval, hge, hle⟩ := hR
          refine ⟨n :: pre, rest2, by simp [hsplit], ?_, ?_, ?_⟩
          · intro x hx
            rcases List.mem_cons.mp hx with rfl | hx
            · exact heq
            · exact hval x hx
          · simp only [List.length_cons]; omega
          · simp only [List.length_cons]; omega
      · rw [if_neg heq] at h
        obtain ⟨k2, hk2, hkk⟩ := Option.map_eq_some'.mp h
        rcases ih 0 (sizeNode n) k2 hk2 with hL | hR
        · left
          obtain ⟨pre, mid, rest2, hsplit, hlen, hval, hbound⟩ := hL
          refine ⟨n :: pre, mid, rest2, by simp [hsplit], hlen, hval, ?_⟩
          simp only [List.length_cons]
          omega
        · left
          obtain ⟨pre, rest2, hsplit, hval, hge, hle⟩ := hR
          have hallpre : ∀ x ∈ pre, sizeNode x = sizeNode n := by
            intro x hx
            exact Nat.cast_injective (hval x hx)
          have hlen1 : retries + 1 ≤ (n :: pre).length := by
            simp only [List.length_cons]; omega
          refine ⟨[], (n :: pre).take (retries + 1),
            (n :: pre).drop (retries + 1) ++ rest2, ?_, ?_, ?_, ?_⟩
          · rw [List.nil_append, ← List.append_assoc, List.take_append_drop]
            simp [hsplit]
          · rw [List.length_take]
            simp only [List.length_cons]
            omega
          · refine ⟨sizeNode n, ?_⟩
            intro x hx
            have hx2 := List.mem_of_mem_take hx
            rcases List.mem_cons.mp hx2 with rfl | hx3
            · rfl
            · exact hallpre x hx3
          · simp only [List.length_nil]
            omega
    · right
      refine ⟨[], n :: rest, rfl, by simp, ?_, by simp⟩
      simp only [List.length_nil, Nat.add_zero]
      omega

/-- C4: for a positive `retries` requirement, `wait_for_stable_file`
(1) returns at the very next check when the path is neither a file nor a
directory, from any loop state (the path disappearing mid-wait);
(2) never returns while the size metric (file byte length, or recursive sum
of file sizes for a directory) changes on every sample — for every finite
trace of pairwise-changing samples the loop is still running at its end; and
(3) returns only after the metric has been observed unchanged for `retries`
consecutive samples: a normal return after `k` samples exhibits `retries + 1`
consecutive observations of one size value inside the first `k` samples. -/
theorem c4_wait_for_stable_file (retries : Nat) (hr : 0 < retries) :
    (∀ (sc : Nat) (last : Int) (rest : List (Option FsNode)), sc < retries →
        wfsLoop retries sc last (none :: rest) = some 1) ∧
    (∀ nodes : List FsNode,
        List.Chain' (fun a b => sizeNode a ≠ sizeNode b) nodes →
        wait_for_stable_file (nodes.map some) retries = none) ∧
    (∀ (nodes : List FsNode) (k : Nat),
        wait_for_stable_file (nodes.map some) retries = some k →
        ∃ pre mid rest, nodes = pre ++ mid ++ rest ∧ mid.length = retries + 1 ∧
          (∃ v, ∀ x ∈ mid, sizeNode x = v) ∧ pre.length + (retries + 1) ≤ k) := by
  refine ⟨?_, ?_, ?_⟩
  · intro sc last rest hsc
    exact wfsLoop_absent retries sc last rest hsc
  · intro nodes hc
    cases nodes with
    | nil =>
      unfold wait_for_stable_file wfsLoop
      simp [hr]
    | cons f rest =>
      have hne : (sizeNode f : Int) ≠ (-1 : Int) := by
        have := Int.natCast_nonneg (sizeNode f)
        omega
      exact wfsLoop_chain_none retries hr rest f (-1) hne hc
  · intro nodes k h
    rcases wfsLoop_some_run retries nodes 0 (-1) k h with hL | hR
    · exact hL
    · obtain ⟨pre, rest, hsplit, hval, hge, hle⟩ := hR
      cases pre with
      | nil => simp at hge; omega
      | cons y ys =>
        have := hval y (by simp)
        have h0 := Int.natCast_nonneg (sizeNode y)
        omega

theorem c4_witness :
    (0 < 3 ∧ wfsLoop 3 0 (-1) (none :: []) = some 1) ∧
    wait_for_stable_file
        ([FsNode.file 1, FsNode.file 2, FsNode.file 3].map some) 3 = none ∧
    (∃ pre mid rest,
        ([FsNode.file 5, FsNode.file 5, FsNode.file 5, FsNode.file 5] : List FsNode)
          = pre ++ mid ++ rest ∧ mid.length = 3 + 1 ∧
        (∃ v, ∀ x ∈ mid, sizeNode x = v) ∧ pre.length + (3 + 1) ≤ 4) :=
  ⟨⟨by decide, (c4_wait_for_stable_file 3 (by decide)).1 0 (-1) [] (by decide)⟩,
   (c4_wait_for_stable_file 3 (by decide)).2.1 [FsNode.file 1, FsNode.file 2, FsNode.file 3]
     (List.Chain.cons (by decide) (List.Chain.cons (by decide) List.Chain.nil)),
   (c4_wait_for_stable_file 3 (by decide)).2.2
     [FsNode.file 5, FsNode.file 5, FsNode.file 5, FsNode.file 5] 4 (by decide)⟩

end GBW

namespace GBW

/- ---------------------------------------------------------------------
C5: the retention listing.
--------------------------------------------------------------------- -/

theorem mergeSort_mtime_trans :
    ∀ a b c : BackupRec, decide (b.mtime ≤ a.mtime) = true →
      decide (c.mtime ≤ b.mtime) = true → decide (c.mtime ≤ a.mtime) = true := by
  intro a b c h1 h2
  simp only [decide_eq_true_eq] at *
  omega

theorem mergeSort_mtime_total :
    ∀ a b : BackupRec,
      (decide (b.mtime ≤ a.mtime) || decide (a.mtime ≤ b.mtime)) = true := by
  intro a b
  simp only [Bool.or_eq_true, decide_eq_true_eq]
  omega

/-- C5: on a backup root with `M` collected snapshot entries and a limit
`K < M`, `load_previous_backups` returns exactly `K` records; the returned
sequence is ordered newest first by last-modified time; every returned
record comes from a top-level entry that is a directory and from a
non-`.png` name inside it; and the listing is a function of the scanned
state alone — equal scans give equal sequences. -/
theorem c5_load_previous_backups (dest : String) (tops : List TopEntry) (k : Nat) :
    (k < (collectBackups dest tops).length →
        (load_previous_backups dest tops k).length = k) ∧
    List.Pairwise (fun a b => b.mtime ≤ a.mtime) (load_previous_backups dest tops k) ∧
    (∀ r ∈ load_previous_backups dest tops k,
        ∃ t ∈ tops, t.isDir = true ∧ ∃ e ∈ t.entries,
          endsWithStr e.name ".png" = false ∧
          r = { mtime := e.mtime, name := e.name,
                path := joinPath (joinPath dest t.name) e.name,
                screenshot := joinPath (joinPath dest t.name) e.name ++ ".png" }) ∧
    (∀ (dest2 : String) (tops2 : List TopEntry), dest2 = dest → tops2 = tops →
        load_previous_backups dest2 tops2 k = load_previous_backups dest tops k) := by
  refine ⟨?_, ?_, ?_, ?_⟩
  · intro hk
    simp only [load_previous_backups, List.length_take, List.length_mergeSort]
    omega
  · have hs := @List.sorted_mergeSort BackupRec
      (fun a b : BackupRec => decide (b.mtime ≤ a.mtime))
      mergeSort_mtime_trans mergeSort_mtime_total (collectBackups dest tops)
    have hs2 : List.Pairwise (fun a b : BackupRec => b.mtime ≤ a.mtime)
        ((collectBackups dest tops).mergeSort
          (fun a b : BackupRec => decide (b.mtime ≤ a.mtime))) := by
      refine hs.imp ?_
      intro a b h
      simpa using h
    exact List.Pairwise.sublist (List.take_sublist _ _) hs2
  · intro r hr
    have hr2 : r ∈ (collectBackups dest tops).mergeSort
        (fun a b : BackupRec => decide (b.mtime ≤ a.mtime)) :=
      List.mem_of_mem_take hr
    have hr3 : r ∈ collectBackups dest tops :=
      (List.mergeSort_perm (collectBackups dest tops) _).mem_iff.mp hr2
    simp only [collectBackups, List.mem_flatMap] at hr3
    obtain ⟨t, ht, hrt⟩ := hr3
    refine ⟨t, ht, ?_⟩
    by_cases hd : t.isDir
    · refine ⟨hd, ?_⟩
      rw [if_pos hd] at hrt
      simp only [List.mem_map, List.mem_filter] at hrt
      obtain ⟨e, ⟨he, hpng⟩, rfl⟩ := hrt
      exact ⟨e, he, by simpa using hpng, rfl⟩
    · rw [if_neg hd] at hrt
      simp at hrt
  · intro dest2 tops2 h1 h2
    rw [h1, h2]

theorem c5_witness :
    1 < (collectBackups "/bk"
        [⟨"01-01-2025", true, [⟨"a.sav_x", 10⟩, ⟨"b.png", 5⟩]⟩,
         ⟨"stray.txt", false, []⟩,
         ⟨"02-01-2025", true, [⟨"c.sav_y", 20⟩]⟩]).length ∧
    (load_previous_backups "/bk"
        [⟨"01-01-2025", true, [⟨"a.sav_x", 10⟩, ⟨"b.png", 5⟩]⟩,
         ⟨"stray.txt", false, []⟩,
         ⟨"02-01-2025", true, [⟨"c.sav_y", 20⟩]⟩] 1).length = 1 :=
  ⟨by decide,
   (c5_load_previous_backups "/bk"
      [⟨"01-01-2025", true, [⟨"a.sav_x", 10⟩, ⟨"b.png", 5⟩]⟩,
       ⟨"stray.txt", false, []⟩,
       ⟨"02-01-2025", true, [⟨"c.sav_y", 20⟩]⟩] 1).1 (by decide)⟩

end GBW

namespace GBW

/- ---------------------------------------------------------------------
C6: the directory-restore merge.
--------------------------------------------------------------------- -/

theorem lookupE_setE_self : ∀ (d : FsEntries) (k : String) (v : FsNode),
    lookupE (setE d k v) k = some v
  | .nil, k, v => by simp [setE, lookupE]
  | .cons n node rest, k, v => by
    by_cases h : n = k
    · simp [setE, h, lookupE]
    · simp [setE, h, lookupE, lookupE_setE_self rest k v]

theorem lookupE_setE_ne : ∀ (d : FsEntries) (k : String) (v : FsNode) (j : String),
    k ≠ j → lookupE (setE d k v) j = lookupE d j
  | .nil, k, v, j, hne => by simp [setE, lookupE, hne]
  | .cons n node rest, k, v, j, hne => by
    by_cases h : n = k
    · simp [setE, h, lookupE, hne]
    · simp only [setE, if_neg h, lookupE]
      by_cases h2 : n = j
      · simp [h2]
      · simp [h2, lookupE_setE_ne rest k v j hne]

theorem copy2Model_frame (dest : FsEntries) (k : String) (c : Nat) (j : String)
    (hne : k ≠ j) : lookupE (copy2Model dest k c).1 j = lookupE dest j := by
  unfold copy2Model
  cases hl : lookupE dest k with
  | none => simp [lookupE_setE_ne dest k _ j hne]
  | some node =>
    cases node with
    | file c2 => simp [lookupE_setE_ne dest k _ j hne]
    | dir ch =>
      cases hl2 : lookupE ch k with
      | none => simp [hl2, lookupE_setE_ne dest k _ j hne]
      | some node2 =>
        cases node2 with
        | file c3 => simp [hl2, lookupE_setE_ne dest k _ j hne]
        | dir ch2 => simp [hl2]

theorem restoreStep_frame (dest : FsEntries) (n : String) (node : FsNode) (j : String)
    (hne : n ≠ j) : lookupE (restoreStep dest n node).1 j = lookupE dest j := by
  cases node with
  | file c => exact copy2Model_frame dest n c j hne
  | dir sch =>
    unfold restoreStep
    cases hl : lookupE dest n with
    | none => simp [lookupE_setE_ne dest n _ j hne]
    | some dnode =>
      cases dnode with
      | file c2 => simp
      | dir dch =>
        cases mergeWalk dch sch with
        | mk m ok => simp [lookupE_setE_ne dest n _ j hne]

theorem restore_dir_loop_frame : ∀ (src dest : FsEntries) (j : String),
    (∀ p ∈ entriesList src, p.1 ≠ j) →
    lookupE (restore_dir_loop dest src).1 j = lookupE dest j
  | .nil, dest, j, _ => by simp [restore_dir_loop]
  | .cons n node rest, dest, j, hall => by
    have hn : n ≠ j := hall (n, node) (by simp [entriesList])
    have hrest : ∀ p ∈ entriesList rest, p.1 ≠ j := by
      intro p hp
      exact hall p (by simp [entriesList, hp])
    simp only [restore_dir_loop]
    cases hs : restoreStep dest n node with
    | mk d ok =>
      have hd : lookupE d j = lookupE dest j := by
        have := restoreStep_frame dest n node j hn
        rw [hs] at this
        exact this
      cases ok with
      | true =>
        simp only []
        rw [restore_dir_loop_frame rest d j hrest, hd]
      | false => simpa using hd

theorem restoreStep_absent (dest : FsEntries) (n : String) (node : FsNode)
    (h : lookupE dest n = none) : restoreStep dest n node = (setE dest n node, true) := by
  cases node with
  | file c => simp [restoreStep, copy2Model, h]
  | dir sch => simp [restoreStep, h]

theorem restoreStep_file_over_file (dest : FsEntries) (n : String) (c c0 : Nat)
    (h : lookupE dest n = some (FsNode.file c0)) :
    restoreStep dest n (FsNode.file c) = (setE dest n (FsNode.file c), true) := by
  simp [restoreStep, copy2Model, h]

theorem namesE_of_mem : ∀ (s : FsEntries) (p : String × FsNode),
    p ∈ entriesList s → p.1 ∈ namesE s
  | .nil, p, hp => by simp [entriesList] at hp
  | .cons n node rest, p, hp => by
    rcases List.mem_cons.mp hp with rfl | hp2
    · simp [namesE]
    · simp only [namesE, List.mem_cons]
      exact Or.inr (namesE_of_mem rest p hp2)

theorem restore_dir_loop_sets : ∀ (src dest : FsEntries) (n : String) (node : FsNode),
    (namesE src).Nodup → (n, node) ∈ entriesList src →
    (lookupE dest n = none ∨
      (∃ c0 c, lookupE dest n = some (FsNode.file c0) ∧ node = FsNode.file c)) →
    (restore_dir_loop dest src).2 = true →
    lookupE (restore_dir_loop dest src).1 n = some node
  | .nil, dest, n, node, _, hmem, _, _ => by simp [entriesList] at hmem
  | .cons m nd rest, dest, n, node, hnd, hmem, hpre, hok => by
    have hnd2 : m ∉ namesE rest ∧ (namesE rest).Nodup := by
      simpa [namesE] using hnd
    rcases List.mem_cons.mp hmem with heq | hmem2
    · simp only [Prod.mk.injEq] at heq
      obtain ⟨rfl, rfl⟩ := heq
      have hstep : restoreStep dest n node = (setE dest n node, true) := by
        rcases hpre with h | ⟨c0, c, h, rfl⟩
        · exact restoreStep_absent dest n node h
        · exact restoreStep_file_over_file dest n c c0 h
      have hrest : ∀ p ∈ entriesList rest, p.1 ≠ n := by
        intro p hp
        intro hcontra
        exact hnd2.1 (hcontra ▸ namesE_of_mem rest p hp)
      simp only [restore_dir_loop, hstep]
      rw [restore_dir_loop_frame rest (setE dest n node) n hrest]
      exact lookupE_setE_self dest n node
    · have hne : m ≠ n := by
        intro hcontra
        exact hnd2.1 (hcontra ▸ namesE_of_mem rest (n, node) hmem2)
      simp only [restore_dir_loop] at hok ⊢
      cases hs : restoreStep dest m nd with
      | mk d ok =>
        have hd : lookupE d n = lookupE dest n := by
          have := restoreStep_frame dest m nd n hne
          rw [hs] at this
          exact this
        cases ok with
        | true =>
          rw [hs] at hok
          simp only [] at hok ⊢
          refine restore_dir_loop_sets rest d n node hnd2.2 hmem2 ?_ hok
          rw [hd]
          exact hpre
        | false =>
          rw [hs] at hok
          simp at hok

/-- C6 (amended): in the directory branch of `restore_backup`, every
pre-existing destination entry whose name does not occur in the snapshot is
left unchanged (never deleted or modified), in every outcome of the loop;
when the loop completes, a snapshot entry whose name is absent from the
destination is added exactly, and a snapshot file whose name exists at the
destination as a file overwrites it.  (A snapshot file whose name exists at
the destination as a directory is instead copied inside that directory —
see the counterexample — so the unrestricted "adds or overwrites" of the
original claim holds only without such a type mismatch.) -/
theorem c6_restore_merge (dest src : FsEntries) :
    (∀ j : String, (∀ p ∈ entriesList src, p.1 ≠ j) →
        lookupE (restore_dir_loop dest src).1 j = lookupE dest j) ∧
    (∀ (n : String) (node : FsNode), (namesE src).Nodup →
        (n, node) ∈ entriesList src → lookupE dest n = none →
        (restore_dir_loop dest src).2 = true →
        lookupE (restore_dir_loop dest src).1 n = some node) ∧
    (∀ (n : String) (c c0 : Nat), (namesE src).Nodup →
        (n, FsNode.file c) ∈ entriesList src →
        lookupE dest n = some (FsNode.file c0) →
        (restore_dir_loop dest src).2 = true →
        lookupE (restore_dir_loop dest src).1 n = some (FsNode.file c)) := by
  refine ⟨?_, ?_, ?_⟩
  · intro j hall
    exact restore_dir_loop_frame src dest j hall
  · intro n node hnd hmem habs hok
    exact restore_dir_loop_sets src dest n node hnd hmem (Or.inl habs) hok
  · intro n c c0 hnd hmem hfile hok
    exact restore_dir_loop_sets src dest n (FsNode.file c) hnd hmem
      (Or.inr ⟨c0, c, hfile, rfl⟩) hok

theorem c6_witness :
    lookupE
        (restore_dir_loop (FsEntries.cons "keep.txt" (FsNode.file 1) FsEntries.nil)
          (FsEntries.cons "game.sav" (FsNode.file 2) FsEntries.nil)).1 "keep.txt"
      = lookupE (FsEntries.cons "keep.txt" (FsNode.file 1) FsEntries.nil) "keep.txt" ∧
    lookupE
        (restore_dir_loop (FsEntries.cons "keep.txt" (FsNode.file 1) FsEntries.nil)
          (FsEntries.cons "game.sav" (FsNode.file 2) FsEntries.nil)).1 "game.sav"
      = some (FsNode.file 2) :=
  ⟨(c6_restore_merge (FsEntries.cons "keep.txt" (FsNode.file 1) FsEntries.nil)
      (FsEntries.cons "game.sav" (FsNode.file 2) FsEntries.nil)).1 "keep.txt"
      (by intro p hp; simp [entriesList] at hp; subst hp; decide),
   (c6_restore_merge (FsEntries.cons "keep.txt" (FsNode.file 1) FsEntries.nil)
      (FsEntries.cons "game.sav" (FsNode.file 2) FsEntries.nil)).2.1 "game.sav"
      (FsNode.file 2) (by simp [namesE]) (by simp [entriesList]) rfl rfl⟩

/-- C6 counterexample: a snapshot containing the file `a` restored onto a
destination whose entry `a` is a directory.  The loop completes without
error, but `shutil.copy2` retargets into the existing directory: afterwards
the destination entry `a` is still a directory (now containing `a/a`), so
the snapshot's entry `a` was neither added nor overwritten as the claim
states. -/
theorem c6_counterexample :
    (restore_dir_loop (FsEntries.cons "a" (FsNode.dir FsEntries.nil) FsEntries.nil)
        (FsEntries.cons "a" (FsNode.file 7) FsEntries.nil)).2 = true ∧
    lookupE
        (restore_dir_loop (FsEntries.cons "a" (FsNode.dir FsEntries.nil) FsEntries.nil)
          (FsEntries.cons "a" (FsNode.file 7) FsEntries.nil)).1 "a"
      = some (FsNode.dir (FsEntries.cons "a" (FsNode.file 7) FsEntries.nil)) ∧
    some (FsNode.dir (FsEntries.cons "a" (FsNode.file 7) FsEntries.nil))
      ≠ some (FsNode.file 7) :=
  ⟨rfl, rfl, fun h => FsNode.noConfusion (Option.some.inj h)⟩

end GBW

namespace GBW

/- ---------------------------------------------------------------------
C7: restore always resumes the watcher.
--------------------------------------------------------------------- -/

/-- C7: whenever `restore_backup` runs with a known backup, a set source
directory (so the copy step is reached) and an active watch session, the
resume step executes whether the copy succeeded or raised: afterwards the
suppression flag is cleared and the watch session is running again, for
every kind of backup entry and for both copy outcomes. -/
theorem c7_restore_resumes (pat sourceDir backupName backupPath : String)
    (kind : RestoreKind) (copyRaises : Bool) (s : AppRestoreState)
    (hrun : s.watcherRunning = true) (hsrc : ¬ sourceDir = "") :
    (restore_backup pat sourceDir backupName backupPath true kind
        copyRaises s).gStopWatching = false ∧
    (restore_backup pat sourceDir backupName backupPath true kind
        copyRaises s).watcherRunning = true := by
  cases copyRaises <;> cases kind <;> simp [restore_backup, hsrc, hrun]

theorem c7_witness :
    (restore_backup "*.sav" "/src" "game.sav_ts" "/bk/game.sav_ts" true
        RestoreKind.file true
        { gStopWatching := false, watcherRunning := true, log := [] }).gStopWatching
      = false ∧
    (restore_backup "*.sav" "/src" "game.sav_ts" "/bk/game.sav_ts" true
        RestoreKind.file true
        { gStopWatching := false, watcherRunning := true, log := [] }).watcherRunning
      = true :=
  c7_restore_resumes "*.sav" "/src" "game.sav_ts" "/bk/game.sav_ts"
    RestoreKind.file true
    { gStopWatching := false, watcherRunning := true, log := [] }
    rfl (by decide)

/- ---------------------------------------------------------------------
C8: the restore target path.
--------------------------------------------------------------------- -/

theorem pySplit_ne_nil : ∀ (sep : Char) (l : List Char), pySplit sep l ≠ []
  | _, [] => by simp [pySplit]
  | sep, c :: rest => by
    by_cases h : c == sep
    · simp [pySplit, h]
    · simp only [pySplit, h, Bool.false_eq_true, if_false]
      cases hr : pySplit sep rest with
      | nil => simp
      | cons a t => simp

theorem pySplit_headD : ∀ (sep : Char) (l : List Char),
    (pySplit sep l).headD [] = l.takeWhile (fun c => c != sep)
  | _, [] => by simp [pySplit]
  | sep, c :: rest => by
    by_cases h : c == sep
    · have hc : (c != sep) = false := by simpa using h
      simp [pySplit, h, List.takeWhile, hc]
    · have hc : (c != sep) = true := by simpa using h
      simp only [pySplit, h, Bool.false_eq_true, if_false, List.takeWhile, hc]
      cases hr : pySplit sep rest with
      | nil => exact absurd hr (pySplit_ne_nil sep rest)
      | cons a t =>
        have := pySplit_headD sep rest
        rw [hr] at this
        simp only [List.headD_cons] at this ⊢
        rw [this]

/-- C8 counterexample: for the pattern `sa?e*.sav` the code derives the
restore target `/src/sa?e` (it splits only on `*`), while the spec's literal
prefix — the portion before the first wildcard character, here the `?` —
gives `/src/sa`. -/
theorem c8_counterexample :
    originalPathFn "/src" "sa?e*.sav"
      ≠ joinPath "/src" (literalPrefixSpec "sa?e*.sav") := by
  decide

/-- C8 (amended): `restore_backup` derives the target path as the root path
joined with the portion of the name pattern before its first `*` (the whole
pattern when it contains no `*`); the other glob wildcards `?` and `[` are
not treated as wildcards by this derivation. -/
theorem c8_original_path (sourceDir pat : String) :
    originalPathFn sourceDir pat
      = joinPath sourceDir (String.mk (pat.toList.takeWhile (fun c => c != '*'))) := by
  unfold originalPathFn watchedNameFn
  by_cases h : pat.toList.contains '*'
  · rw [if_pos h, pySplit_headD]
  · have h2 : '*' ∉ pat.toList := by simpa using h
    have hall : ∀ c ∈ pat.toList, (c != '*') = true := by
      intro c hc
      simp only [bne_iff_ne, ne_eq]
      intro hcontra
      exact h2 (hcontra ▸ hc)
    have hsame : pat.toList.takeWhile (fun c => c != '*') = pat.toList :=
      List.takeWhile_eq_self_iff.mpr hall
    rw [if_neg h, hsame]
    rfl

end GBW
